import Mathlib

/-!
Verification of the vsfs file-system simulator (src/fs.c) against its
natural-language specification.

The C program is embedded shallowly: the global `disk` byte region is modelled
structurally as a record of its four mutable regions (the two bitmap blocks,
the inode table and the data region), machine words are `Nat` values below
2 ^ 64, and every C function that the claims mention is translated to a Lean
function of the same name.  C strings are modelled as `List Char` (the
characters strictly before the terminating NUL byte).  Loops whose C bound is
a memory condition (the empty-name sentinel of a directory block, the
recursion of the tree printer) take an explicit fuel argument sized by the
capacity of the corresponding region; exceeding it corresponds to the scan
leaving its block in C, which is an out-of-bounds access there.
-/

namespace VSFS

/-- fs.c line 17: `#define BLOCK_SIZE_IN_BYTES 4096`. -/
def BLOCK_SIZE_IN_BYTES : Nat := 4096

/-- fs.c line 18: `#define DISK_SIZE_IN_BLOCKS 64`. -/
def DISK_SIZE_IN_BLOCKS : Nat := 64

/-- fs.c line 19: `#define DATA_REGION_IN_BLOCKS 56`. -/
def DATA_REGION_IN_BLOCKS : Nat := 56

/-- fs.c line 20: `#define INODE_TABLE_IN_BLOCKS 5`. -/
def INODE_TABLE_IN_BLOCKS : Nat := 5

/-- fs.c line 21: `#define INODE_SIZE_IN_BYTES 256`. -/
def INODE_SIZE_IN_BYTES : Nat := 256

/-- fs.c line 22: `#define MAX_DIRECTORY_NAME_LENGTH 30`. -/
def MAX_DIRECTORY_NAME_LENGTH : Nat := 30

/-- fs.c line 28: `BITS_PER_WORD = sizeof(word_t) * CHAR_BIT` = 64. -/
def BITS_PER_WORD : Nat := 64

/-- Number of bits scanned by `first_clear_bit` (fs.c line 46):
`BLOCK_SIZE_IN_BYTES * CHAR_BIT` = 32768. -/
def BITMAP_BITS : Nat := BLOCK_SIZE_IN_BYTES * 8

/-- Number of whole `direntry` records that fit in one 4096-byte block:
`sizeof(struct direntry)` is 36 bytes (an `int`, a `char[31]` and one byte of
padding for the 4-byte alignment of `int`), and 4096 / 36 = 113.  The C scans
have no bound at all; a scan that walks past slot 112 has left its block. -/
def DIRENTRIES_PER_BLOCK : Nat := 113

/-- Capacity of the inode table: 5 blocks of 4096 bytes at a 256-byte stride,
i.e. 80 inodes.  Used only to size the fuel of the (unbounded in C) tree
printer recursion. -/
def INODE_CAPACITY : Nat := INODE_TABLE_IN_BLOCKS * BLOCK_SIZE_IN_BYTES / INODE_SIZE_IN_BYTES

/-- fs.c line 57: `enum inode_type { inode_type_file, ... }` — value 0. -/
def inode_type_file : Nat := 0

/-- fs.c line 57: `enum inode_type { ..., inode_type_directory }` — value 1. -/
def inode_type_directory : Nat := 1

/-- The 64-bit word value of the C mask expression `(1 << s)` for a shift
amount `s = BIT_OFFSET(n)` in `[0, 63]`, as it executes on the x86-64 target
the program is written for.  The literal `1` has type `int` (32 bits), so:
the hardware masks the shift amount to 5 bits (`s % 32`); for `s % 32 ≤ 30`
the result is the positive `int` `2 ^ (s % 32)`; for `s % 32 = 31` the result
is the negative `int` `INT_MIN`, whose conversion to the unsigned 64-bit
`word_t` (in `|=`, `&=`, `&`) is value-preserving modulo 2 ^ 64 and therefore
sign-extends to `0xFFFFFFFF80000000 = 2 ^ 64 - 2 ^ 31`.  (Had the literal
been `(word_t)1`, the mask would be `2 ^ (s % 64)` instead.) -/
def cMask (s : Nat) : Nat := if s % 32 = 31 then 2 ^ 64 - 2 ^ 31 else 2 ^ (s % 32)

/-- fs.c lines 32-34: `set_bit(words, n)` — `words[WORD_OFFSET(n)] |= (1 << BIT_OFFSET(n))`.
The macros of fs.c lines 29-30, `WORD_OFFSET(b) = (b) / BITS_PER_WORD` and
`BIT_OFFSET(b) = (b) % BITS_PER_WORD` with `BITS_PER_WORD` = 64, are expanded
textually, as C macros are.  The word array is modelled as a map from word
index to word value. -/
def set_bit (words : Nat → Nat) (n : Nat) : Nat → Nat :=
  Function.update words (n / 64) (words (n / 64) ||| cMask (n % 64))

/-- fs.c lines 40-43: `get_bit(words, n)` — `(words[WORD_OFFSET(n)] & (1 << BIT_OFFSET(n))) != 0`
with the offset macros expanded as in `set_bit`. -/
def get_bit (words : Nat → Nat) (n : Nat) : Bool :=
  (words (n / 64) &&& cMask (n % 64)) != 0

/-- The loop of `first_clear_bit` (fs.c lines 46-50): the fuel is the number
of iterations left of the `i < BLOCK_SIZE_IN_BYTES * CHAR_BIT` bound and `i`
is the loop counter; when the fuel runs out the loop has finished and -1 is
returned.  (Spelled with a bare `Nat.rec` so that the kernel can evaluate
long concrete scans without the depth overhead of the equation compiler's
encoding; `firstClearAux_zero` and `firstClearAux_succ` below restate the two
equations.) -/
def firstClearAux (words : Nat → Nat) (fuel : Nat) : Nat → Int :=
  Nat.rec (motive := fun _ => Nat → Int) (fun _ => -1)
    (fun _ ih i => if get_bit words i then ih (i + 1) else (i : Int)) fuel

/-- fs.c lines 45-53: `first_clear_bit(words)` — linear scan from bit 0 over
32768 bits; returns the index of the first clear bit, or -1 if every bit is
set. -/
def first_clear_bit (words : Nat → Nat) : Int :=
  firstClearAux words BITMAP_BITS 0

/-- fs.c lines 73-76: `struct direntry` — a child inode index and a name.
The `char name[31]` array is modelled as the list of characters strictly
before the first NUL byte; the all-zero record of a never-written slot is
`⟨0, []⟩`, and the empty name is the end-of-entries sentinel. -/
structure direntry where
  inum : Nat
  name : List Char
deriving DecidableEq

/-- fs.c lines 67-71: `struct inode`.  The `size` field is declared but never
read or written and the block-pointer slots 1..11 are never used, so the model
keeps the `type` tag and block-pointer slot 0 only.  The pointer
`data_block_pointers[0]` is modelled as the index of the data block it
addresses (`data_block_for_index` is injective), with `none` for the NULL
pointer of a zeroed inode. -/
structure inode where
  type : Nat
  data_block0 : Option Nat
deriving DecidableEq

/-- The global `disk` region (fs.c line 24), structured per the superblock
layout that `fs_create_disk` writes (inode bitmap block 1, data bitmap
block 2, inode table blocks 3-7, data region from block 8): the two bitmaps
as word maps, the inode table as a map from inode index to inode, and the
data region as a map from data-block index to a map from direntry slot to
direntry.  All maps are total; indices beyond a region's capacity correspond
to memory outside that region in C. -/
structure Disk where
  inode_bitmap : Nat → Nat
  data_bitmap : Nat → Nat
  inodes : Nat → inode
  blocks : Nat → Nat → direntry

/-- fs.c lines 101-109: `init_direntry_datablock_with_default_directories` —
writes entry 0 = `⟨0, "."⟩` and entry 1 = `⟨0, ".."⟩` of the given block and
touches nothing else. -/
def init_direntry_datablock_with_default_directories (blk : Nat → direntry) : Nat → direntry :=
  Function.update (Function.update blk 0 ⟨0, ['.']⟩) 1 ⟨0, ['.', '.']⟩

/-- fs.c lines 111-132: `fs_create_disk` — calloc zero-fills the disk (all
bitmap words 0, every inode `⟨0, NULL⟩`, every direntry `⟨0, ""⟩`), then
allocates inode 0, marks it a directory, allocates data block 0, points the
inode at it and seeds it with the "." and ".." entries, in that order. -/
def fs_create_disk : Disk :=
  let d0 : Disk :=
    { inode_bitmap := fun _ => 0
      data_bitmap := fun _ => 0
      inodes := fun _ => ⟨inode_type_file, none⟩
      blocks := fun _ _ => ⟨0, []⟩ }
  let d1 : Disk := { d0 with inode_bitmap := set_bit d0.inode_bitmap 0 }
  let d2 : Disk := { d1 with inodes := Function.update d1.inodes 0 ⟨inode_type_directory, none⟩ }
  let d3 : Disk := { d2 with data_bitmap := set_bit d2.data_bitmap 0 }
  let d4 : Disk := { d3 with inodes := Function.update d3.inodes 0 ⟨inode_type_directory, some 0⟩ }
  { d4 with blocks := (Function.update d4.blocks 0
      (init_direntry_datablock_with_default_directories (d4.blocks 0))) }

/-- fs.c lines 134-137: `root_inode` — the superblock's `root_inode` field is
written once, as 0. -/
def root_inode : Nat := 0

/-- The directory-entry scan shared by `create_inode` (fs.c lines 211-215),
`directory_inode` (lines 176-185) and `print_inode_recursive` (lines 156-165):
`entry = &entry[++index]` advances the cursor by the incremented index
relative to its current position, so the visited slots are 0, 1, 3, 6, 10, …
(the triangular numbers).  `findSlotAux` is the append scan of `create_inode`:
it returns the first visited slot holding an empty name.  The fuel bounds the
number of visited slots by the block's capacity; the C loop is unbounded. -/
def findSlotAux (blk : Nat → direntry) : Nat → Nat → Nat → Option Nat
  | _, _, 0 => none
  | slot, idx, fuel + 1 =>
    if (blk slot).name = [] then some slot
    else findSlotAux blk (slot + (idx + 1)) (idx + 1) fuel

/-- The append scan of `create_inode` started at entry 0 of a block. -/
def find_slot (blk : Nat → direntry) : Option Nat :=
  findSlotAux blk 0 0 DIRENTRIES_PER_BLOCK

/-- The lookup scan of `directory_inode` (fs.c lines 178-185): same cursor
stride as `findSlotAux`; stops with `none` at the first empty name, and
returns the entry's inode index at the first exact (`strcmp`) name match. -/
def lookupAux (blk : Nat → direntry) (target : List Char) : Nat → Nat → Nat → Option Nat
  | _, _, 0 => none
  | slot, idx, fuel + 1 =>
    if (blk slot).name = [] then none
    else if (blk slot).name = target then some (blk slot).inum
    else lookupAux blk target (slot + (idx + 1)) (idx + 1) fuel

/-- The live entries of a directory block: the entries at the visited slots
0, 1, 3, 6, … strictly before the first empty name, in visit order.  This is
the sequence every one of the three C scans steps through. -/
def scanEntriesAux (blk : Nat → direntry) : Nat → Nat → Nat → List direntry
  | _, _, 0 => []
  | slot, idx, fuel + 1 =>
    if (blk slot).name = [] then []
    else blk slot :: scanEntriesAux blk (slot + (idx + 1)) (idx + 1) fuel

/-- The live entries of a block, scanned from entry 0. -/
def scanEntries (blk : Nat → direntry) : List direntry :=
  scanEntriesAux blk 0 0 DIRENTRIES_PER_BLOCK

/-- fs.c lines 171-188: `directory_inode(curr_dir_inode, directory_name)` —
NULL if the current inode is not a directory; otherwise the lookup scan of
its data block.  The C function takes and returns `inode *` pointers; the
model passes inode indices (`inode_for_index` is injective, so the two are
interchangeable).  A directory inode whose block pointer is NULL would be
dereferenced by the C here; that state is modelled as `none`. -/
def directory_inode (fs : Disk) (cur : Nat) (directory_name : List Char) : Option Nat :=
  if (fs.inodes cur).type ≠ inode_type_directory then none
  else
    match (fs.inodes cur).data_block0 with
    | none => none
    | some b => lookupAux (fs.blocks b) directory_name 0 0 DIRENTRIES_PER_BLOCK

/-- fs.c lines 190-224: `create_inode(parent, name, inode_type)`.
`none` models the executions the C cannot complete normally: the
`assert(parent->type == inode_type_directory)` aborting the process (before
any write), `first_clear_bit` returning -1 (the C would then index the bitmap
with -1), a NULL parent block pointer (the C would dereference it), and the
append scan running past the block's 113 slots (the C would write outside the
block).  Otherwise it performs, in the C's order: allocate an inode index and
a data-block index (each by `first_clear_bit` then `set_bit`), write the new
inode, append `⟨inum, name truncated to 30 chars⟩` at the first free slot of
the parent's scan sequence (`strncpy` copies at most 30 characters; the
stored string stays NUL-terminated because `name[30]` of a calloc-zeroed,
never-reused slot is 0), and, for a directory, seed the new block with the
"." and ".." entries. -/
def create_inode (fs : Disk) (p : Nat) (nm : List Char) (ty : Nat) : Option Disk :=
  if (fs.inodes p).type = inode_type_directory then
    let r1 := first_clear_bit fs.inode_bitmap
    if r1 < 0 then none
    else
      let inum := r1.toNat
      let fs1 : Disk := { fs with inode_bitmap := set_bit fs.inode_bitmap inum }
      let r2 := first_clear_bit fs1.data_bitmap
      if r2 < 0 then none
      else
        let dnum := r2.toNat
        let fs2 : Disk := { fs1 with data_bitmap := set_bit fs1.data_bitmap dnum }
        let fs3 : Disk := { fs2 with inodes := Function.update fs2.inodes inum ⟨ty, some dnum⟩ }
        match (fs3.inodes p).data_block0 with
        | none => none
        | some pb =>
          match find_slot (fs3.blocks pb) with
          | none => none
          | some s =>
            let fs4 : Disk := { fs3 with blocks := (Function.update fs3.blocks pb
                (Function.update (fs3.blocks pb) s ⟨inum, nm.take MAX_DIRECTORY_NAME_LENGTH⟩)) }
            if ty = inode_type_directory then
              some { fs4 with blocks := (Function.update fs4.blocks dnum
                  (init_direntry_datablock_with_default_directories (fs4.blocks dnum))) }
            else some fs4
  else none

/-- The `strsep(&string, "/")` tokenisation of `create_file`/`create_dir`
(fs.c lines 240, 268): split on every slash; the empty string yields the
single empty token, a trailing slash yields a final empty token. -/
def splitSlashAux : List Char → List Char → List (List Char)
  | [], acc => [acc.reverse]
  | c :: cs, acc => if c = '/' then acc.reverse :: splitSlashAux cs [] else splitSlashAux cs (c :: acc)

/-- Tokenise a path body (the part after the leading slash) on slashes. -/
def splitSlash (s : List Char) : List (List Char) :=
  splitSlashAux s []

/-- The component loop of `create_file`/`create_dir` (fs.c lines 240-249,
268-278): every component except the last descends through
`directory_inode`, a failed descent breaks out with no further effect, and
the final component is created under the inode reached. -/
def walk_create (fs : Disk) (cur : Nat) (ty : Nat) : List (List Char) → Option Disk
  | [] => some fs
  | [c] => create_inode fs cur c ty
  | c :: c2 :: rest =>
    match directory_inode fs cur c with
    | none => some fs
    | some j => walk_create fs j ty (c2 :: rest)

/-- fs.c lines 226-252: `create_file(path)` — a path not starting with '/'
is rejected with no effect; otherwise the leading slash is skipped and the
components are walked from the root inode, creating a file at the end. -/
def create_file (fs : Disk) (path : List Char) : Option Disk :=
  match path with
  | [] => some fs
  | c :: rest =>
    if c = '/' then walk_create fs root_inode inode_type_file (splitSlash rest)
    else some fs

/-- fs.c lines 254-281: `create_dir(path)` — identical to `create_file`
except that the final component is created as a directory. -/
def create_dir (fs : Disk) (path : List Char) : Option Disk :=
  match path with
  | [] => some fs
  | c :: rest =>
    if c = '/' then walk_create fs root_inode inode_type_directory (splitSlash rest)
    else some fs

/-- fs.c lines 139-167: `print_inode_recursive(name, inode, level)` — emits
the line of `level` spaces followed by the name; entries literally named "."
or ".." are printed but never recursed into; for a directory the live entries
of its block are visited in scan order, each recursively printed one level
deeper.  The C recursion is unbounded; the fuel bounds the recursion depth
and is sized so that it cannot run out on a tree with at most 80 inodes. -/
def print_inode_recursive (fs : Disk) : Nat → List Char → Nat → Nat → List (List Char)
  | 0, _, _, _ => []
  | fuel + 1, name, i, level =>
    let line := List.replicate level ' ' ++ name
    if name = ['.'] ∨ name = ['.', '.'] then [line]
    else if (fs.inodes i).type = inode_type_directory then
      match (fs.inodes i).data_block0 with
      | none => [line]
      | some b =>
        line :: (scanEntries (fs.blocks b)).flatMap
          (fun e => print_inode_recursive fs fuel e.name e.inum (level + 1))
    else [line]

/-- fs.c line 169: `print_tree` — print from the root inode with name "/" at
level 0.  The result is the list of printed lines. -/
def print_tree (fs : Disk) : List (List Char) :=
  print_inode_recursive fs INODE_CAPACITY ['/'] root_inode 0

/-- One allocation of `create_inode` (fs.c lines 196-197 and 201-202): take
the first clear bit of a bitmap and set it.  When `first_clear_bit` reports
no free bit (-1) the C goes on to call `set_bit(words, -1)`, an out-of-range
access; the model returns the bitmap unchanged in that branch (no claim
reaches it: the witnesses below always have a clear bit). -/
def allocStep (w : Nat → Nat) : Int × (Nat → Nat) :=
  let r := first_clear_bit w
  if r < 0 then (r, w) else (r, set_bit w r.toNat)

/-- A run of `n` successive allocations against one bitmap, returning the
list of indices handed out (in order) and the final bitmap. -/
def allocRun (w : Nat → Nat) : Nat → List Int × (Nat → Nat)
  | 0 => ([], w)
  | n + 1 =>
    let s := allocStep w
    let t := allocRun s.2 n
    (s.1 :: t.1, t.2)

/-- The resolution predicate of the claim about bad paths: true when some
component other than the last either fails to resolve (`directory_inode`
returns NULL) or resolves to an inode that is not a directory. -/
def bad_walk (fs : Disk) (cur : Nat) : List (List Char) → Bool
  | [] => false
  | [_] => false
  | c :: c2 :: rest =>
    match directory_inode fs cur c with
    | none => true
    | some j =>
      if (fs.inodes j).type = inode_type_directory then bad_walk fs j (c2 :: rest)
      else true

/-- The all-zero word map of a freshly calloc-ed bitmap block. -/
def zero_words : Nat → Nat := fun _ => 0

/-- A word map whose word 0 is all ones: the inode/data bitmap after 32
allocations (the 32nd, at bit 31, sets bits 31..63 of word 0 in one stroke
because of the sign-extended mask). -/
def full_word0 : Nat → Nat := fun w => if w = 0 then 2 ^ 64 - 1 else 0

/-- The root directory block holding only its "." and ".." entries. -/
def dots_block : Nat → direntry :=
  fun s => if s = 0 then ⟨0, ['.']⟩ else if s = 1 then ⟨0, ['.', '.']⟩ else ⟨0, []⟩

/-- A disk on which every data-region block (and then some) is marked
allocated: both bitmaps have word 0 all ones — exactly the word value the
allocation discipline produces after 32 creations — with a root directory at
inode 0 owning block 0. -/
def fs_full : Disk :=
  { inode_bitmap := full_word0
    data_bitmap := full_word0
    inodes := fun i => if i = 0 then ⟨inode_type_directory, some 0⟩ else ⟨inode_type_file, none⟩
    blocks := fun b => if b = 0 then dots_block else fun _ => ⟨0, []⟩ }

/-- The path "/a". -/
def pathA : List Char := ['/', 'a']

/-- The path "/a/b.txt". -/
def pathAB : List Char := ['/', 'a', '/', 'b', '.', 't', 'x', 't']

/-- The path "relative.txt" (no leading slash). -/
def rel_path : List Char := ['r', 'e', 'l', 'a', 't', 'i', 'v', 'e', '.', 't', 'x', 't']

/-- The path "/missing/x.txt" whose first component was never created. -/
def missing_path : List Char :=
  ['/', 'm', 'i', 's', 's', 'i', 'n', 'g', '/', 'x', '.', 't', 'x', 't']

/-- A 31-character name, one longer than the 30-character limit. -/
def long_name : List Char := List.replicate 31 'x'

/-- A bitmap whose word 0 is 3: bits 0 and 1 set, bit 2 clear. -/
def two_bits : Nat → Nat := fun w => if w = 0 then 3 else 0

/-- The word map with every word all ones: a bitmap with every bit set. -/
def all_ones : Nat → Nat := fun _ => 2 ^ 64 - 1

/-- Decidable form of "every data-region block index is marked allocated in
the given data bitmap": bits 0..55 are all set. -/
def region_all_allocated (w : Nat → Nat) : Bool :=
  (List.range DATA_REGION_IN_BLOCKS).all (fun i => get_bit w i)

/-- The disk produced by a successful `create_inode fs p nm ty` run, written
out explicitly: both bitmap bits set, the new inode written at the allocated
index, the truncated name appended at slot `s` of the parent's block `pb`,
and — for a directory — the new block seeded.  `create_inode_spec` proves
that every successful `create_inode` call returns exactly this disk. -/
def createdDisk (fs : Disk) (nm : List Char) (ty : Nat) (pb s : Nat) : Disk :=
  let inum := (first_clear_bit fs.inode_bitmap).toNat
  let dnum := (first_clear_bit fs.data_bitmap).toNat
  let blocks1 := Function.update fs.blocks pb
    (Function.update (fs.blocks pb) s ⟨inum, nm.take MAX_DIRECTORY_NAME_LENGTH⟩)
  { inode_bitmap := set_bit fs.inode_bitmap inum
    data_bitmap := set_bit fs.data_bitmap dnum
    inodes := Function.update fs.inodes inum ⟨ty, some dnum⟩
    blocks := if ty = inode_type_directory then
        (Function.update blocks1 dnum
          (init_direntry_datablock_with_default_directories (blocks1 dnum)))
      else blocks1 }

end VSFS

namespace VSFS

/-! ## Theorems -/

/-- Unfolding equation of `firstClearAux` at fuel 0. -/
theorem firstClearAux_zero (w : Nat → Nat) (i : Nat) : firstClearAux w 0 i = -1 := rfl

/-- Unfolding equation of `firstClearAux` at successor fuel. -/
theorem firstClearAux_succ (w : Nat → Nat) (fuel i : Nat) :
    firstClearAux w (fuel + 1) i =
      if get_bit w i then firstClearAux w fuel (i + 1) else (i : Int) := rfl

/-- If every bit from `i` up to (excluding) `k` is set and bit `k` is clear,
the scan starting at `i` stops at `k`. -/
theorem firstClearAux_eq_of (w : Nat → Nat) :
    ∀ (fuel i k : Nat), i ≤ k → k < i + fuel →
      (∀ m, i ≤ m → m < k → get_bit w m = true) → get_bit w k = false →
      firstClearAux w fuel i = (k : Int) := by
  intro fuel
  induction fuel with
  | zero => intro i k h1 h2 _ _; omega
  | succ fuel ih =>
    intro i k h1 h2 hset hclear
    rw [firstClearAux_succ]
    by_cases hik : i = k
    · subst hik
      rw [hclear]
      simp
    · rw [hset i le_rfl (by omega)]
      simp only [if_true]
      exact ih (i + 1) k (by omega) (by omega) (fun m hm hm2 => hset m (by omega) hm2) hclear


/-- If every bit scanned is set, the scan reports -1. -/
theorem firstClearAux_eq_neg (w : Nat → Nat) :
    ∀ (fuel i : Nat), (∀ m, i ≤ m → m < i + fuel → get_bit w m = true) →
      firstClearAux w fuel i = -1 := by
  intro fuel
  induction fuel with
  | zero => intro i _; exact firstClearAux_zero w i
  | succ fuel ih =>
    intro i hall
    rw [firstClearAux_succ, hall i le_rfl (by omega)]
    simp only [if_true]
    exact ih (i + 1) (fun m hm hm2 => hall m (by omega) (by omega))

/-- A non-negative scan result is the index of a clear bit. -/
theorem firstClearAux_clear (w : Nat → Nat) :
    ∀ (fuel i : Nat) (r : Int), firstClearAux w fuel i = r → 0 ≤ r →
      get_bit w r.toNat = false := by
  intro fuel
  induction fuel with
  | zero =>
    intro i r h h0
    rw [firstClearAux_zero] at h
    omega
  | succ fuel ih =>
    intro i r h h0
    rw [firstClearAux_succ] at h
    by_cases hgb : get_bit w i
    · rw [if_pos hgb] at h
      exact ih (i + 1) r h h0
    · rw [if_neg hgb] at h
      rw [← h]
      simpa using hgb

/-- A non-negative `first_clear_bit` result indexes a clear bit. -/
theorem first_clear_bit_clear (w : Nat → Nat) (h0 : 0 ≤ first_clear_bit w) :
    get_bit w (first_clear_bit w).toNat = false :=
  firstClearAux_clear w BITMAP_BITS 0 (first_clear_bit w) rfl h0

/-- C2: first_clear_bit scans linearly from bit 0 over a bitmap of
BLOCK_SIZE_IN_BYTES * 8 = 32768 bits and returns the index of the first
clear bit: for every bitmap state in which bits 0..k-1 are set and bit k is
clear (k < capacity) it returns k, and when every bit is set it returns the
sentinel -1. -/
theorem c2_first_clear_bit_scan :
    (∀ (w : Nat → Nat) (k : Nat), k < BITMAP_BITS →
        (∀ i, i < k → get_bit w i = true) → get_bit w k = false →
        first_clear_bit w = (k : Int)) ∧
    (∀ w : Nat → Nat, (∀ i, i < BITMAP_BITS → get_bit w i = true) →
        first_clear_bit w = -1) := by
  constructor
  · intro w k hk hset hclear
    exact firstClearAux_eq_of w BITMAP_BITS 0 k (Nat.zero_le _) (by omega)
      (fun m _ hm => hset m hm) hclear
  · intro w hall
    exact firstClearAux_eq_neg w BITMAP_BITS 0 (fun m _ hm => hall m (by omega))

/-- Every position of an all-ones bitmap reads as set: the mask of any bit
offset has a nonzero intersection with an all-ones word. -/
theorem get_bit_all_ones (i : Nat) : get_bit all_ones i = true := by
  have h64 : ∀ s, s < 64 → ((2 ^ 64 - 1) &&& cMask s) ≠ 0 := by decide
  have hlt : i % 64 < 64 := Nat.mod_lt _ (by decide)
  simp only [get_bit, all_ones, bne_iff_ne, ne_eq]
  exact h64 (i % 64) hlt

/-- Witness for C2: on the bitmap with exactly bits 0 and 1 set the scan
returns 2, and on the all-ones bitmap it returns -1. -/
theorem c2_first_clear_bit_scan_witness :
    first_clear_bit two_bits = (2 : Int) ∧ first_clear_bit all_ones = -1 := by
  constructor
  · exact c2_first_clear_bit_scan.1 two_bits 2 (by decide) (by decide) (by decide)
  · exact c2_first_clear_bit_scan.2 all_ones (fun i _ => get_bit_all_ones i)

/-- C10: refuted on the code — evaluation at the failing input.  The claim
says that after `set_bit(words, n)` only position `n` changes and that the
mask is the 64-bit value 1 <<< (n % 64); but the C mask is the 32-bit int
`1 << 31` = INT_MIN for n = 31, which sign-extends to 0xFFFFFFFF80000000, so
`set_bit(words, 31)` on the all-zero bitmap also raises `get_bit(words, 63)`
(a position 63 that is distinct from 31) from false to true. -/
theorem c10_set_bit_crosstalk :
    get_bit zero_words 63 = false ∧
    get_bit (set_bit zero_words 31) 63 = true ∧
    get_bit (set_bit zero_words 31) 31 = true := by decide

/-- Intersecting a word with a mask just OR-ed into it yields the mask. -/
theorem land_lor_self (a m : Nat) : (a ||| m) &&& m = m := by
  apply Nat.eq_of_testBit_eq
  intro k
  rw [Nat.testBit_land, Nat.testBit_lor]
  cases a.testBit k <;> cases m.testBit k <;> rfl

/-- No bit-position mask is the zero word. -/
theorem cMask_ne_zero (s : Nat) : cMask s ≠ 0 := by
  unfold cMask
  split
  · decide
  · exact (Nat.pos_pow_of_pos _ (by decide)).ne'

/-- `get_bit` reads back true at the position just given to `set_bit`
(the query and the update build the same mask from the same offset). -/
theorem get_bit_set_bit_self (w : Nat → Nat) (n : Nat) :
    get_bit (set_bit w n) n = true := by
  unfold get_bit set_bit
  rw [Function.update_same, land_lor_self]
  simp [bne_iff_ne, cMask_ne_zero]

/-- If a word OR-ed with another has empty intersection with a mask, so had
the original word. -/
theorem land_eq_zero_of_lor_left {a b c : Nat} (h : (a ||| b) &&& c = 0) :
    a &&& c = 0 := by
  apply Nat.eq_of_testBit_eq
  intro k
  rw [Nat.testBit_land, Nat.zero_testBit]
  have hk : ((a ||| b) &&& c).testBit k = false := by rw [h]; exact Nat.zero_testBit k
  rw [Nat.testBit_land, Nat.testBit_lor] at hk
  revert hk
  cases a.testBit k <;> cases b.testBit k <;> cases c.testBit k <;> simp

/-- `set_bit` never lowers a set reading: bits only accumulate. -/
theorem get_bit_mono (w : Nat → Nat) (n m : Nat) (h : get_bit w m = true) :
    get_bit (set_bit w n) m = true := by
  unfold get_bit at h ⊢
  unfold set_bit
  by_cases hw : m / 64 = n / 64
  · rw [hw, Function.update_same]
    rw [bne_iff_ne] at h ⊢
    rw [hw] at h
    intro hz
    exact h (land_eq_zero_of_lor_left hz)
  · rw [Function.update_noteq hw]
    exact h

/-- Unfolding equation of `allocRun` at a successor count. -/
theorem allocRun_succ (w : Nat → Nat) (n : Nat) :
    allocRun w (n + 1) =
      ((allocStep w).1 :: (allocRun (allocStep w).2 n).1, (allocRun (allocStep w).2 n).2) := rfl

/-- The index component of one allocation step is the scan result. -/
theorem allocStep_fst (w : Nat → Nat) : (allocStep w).1 = first_clear_bit w := by
  show (if first_clear_bit w < 0 then ((first_clear_bit w : Int), w)
      else (first_clear_bit w, set_bit w (first_clear_bit w).toNat)).1 = first_clear_bit w
  split <;> rfl

/-- A successful allocation step sets the bit it hands out. -/
theorem allocStep_snd (w : Nat → Nat) (h : 0 ≤ first_clear_bit w) :
    (allocStep w).2 = set_bit w (first_clear_bit w).toNat := by
  show (if first_clear_bit w < 0 then ((first_clear_bit w : Int), w)
      else (first_clear_bit w, set_bit w (first_clear_bit w).toNat)).2 =
    set_bit w (first_clear_bit w).toNat
  rw [if_neg (by omega)]

/-- An index whose bit is already set is never handed out by any later
allocation: each handed-out index was clear when returned, and set bits
persist. -/
theorem allocRun_not_mem (i : Nat) :
    ∀ (n : Nat) (w : Nat → Nat), get_bit w i = true → (i : Int) ∉ (allocRun w n).1 := by
  intro n
  induction n with
  | zero => intro w _ hmem; simp [allocRun] at hmem
  | succ n ih =>
    intro w h hmem
    rw [allocRun_succ] at hmem
    rcases List.mem_cons.mp hmem with heq | hmem2
    · rw [allocStep_fst] at heq
      have h0 : 0 ≤ first_clear_bit w := by rw [← heq]; omega
      have hclear := first_clear_bit_clear w h0
      rw [← heq] at hclear
      simp only [Int.toNat_ofNat] at hclear
      rw [h] at hclear
      exact absurd hclear (by simp)
    · refine ih (allocStep w).2 ?_ hmem2
      show get_bit (if first_clear_bit w < 0 then ((first_clear_bit w : Int), w)
          else (first_clear_bit w, set_bit w (first_clear_bit w).toNat)).2 i = true
      split
      · exact h
      · exact get_bit_mono w _ i h

/-- Characterisation of a successful `create_inode` call: the parent is a
directory, both scans succeed, the parent block `pb` is read from the inode
table after the new inode was written into it, the append scan finds slot
`s`, and the returned disk is exactly `createdDisk fs nm ty pb s`. -/
theorem create_inode_spec (fs : Disk) (p : Nat) (nm : List Char) (ty : Nat) (fs' : Disk)
    (h : create_inode fs p nm ty = some fs') :
    ∃ pb s,
      (fs.inodes p).type = inode_type_directory ∧
      0 ≤ first_clear_bit fs.inode_bitmap ∧
      0 ≤ first_clear_bit fs.data_bitmap ∧
      (Function.update fs.inodes (first_clear_bit fs.inode_bitmap).toNat
          ⟨ty, some (first_clear_bit fs.data_bitmap).toNat⟩ p).data_block0 = some pb ∧
      find_slot (fs.blocks pb) = some s ∧
      fs' = createdDisk fs nm ty pb s := by
  simp only [create_inode] at h
  split at h
  case isFalse hty => exact absurd h (by simp)
  case isTrue hty =>
  split at h
  case isTrue h1 => exact absurd h (by simp)
  case isFalse h1 =>
  split at h
  case isTrue h2 => exact absurd h (by simp)
  case isFalse h2 =>
  split at h
  case h_1 hpb => exact absurd h (by simp)
  case h_2 pb hpb =>
  split at h
  case h_1 hfind => exact absurd h (by simp)
  case h_2 s hfind =>
  refine ⟨pb, s, hty, by omega, by omega, hpb, hfind, ?_⟩
  split at h
  case isTrue hdir =>
    rw [Option.some_inj] at h
    rw [← h]
    simp only [createdDisk, if_pos hdir]
  case isFalse hdir =>
    rw [Option.some_inj] at h
    rw [← h]
    simp only [createdDisk, if_neg hdir]

/-- C1: allocation uniqueness.  First conjunct: a run of allocations against
one bitmap, each performed as `first_clear_bit` followed by `set_bit`, hands
out pairwise distinct indices whenever every step succeeds (returns a
non-negative index) — so no two live inodes share an inode-bitmap index and
no two live data blocks share a data-bitmap index.  Second conjunct: every
successful `create_inode` transforms each of the two bitmaps by exactly one
such allocation step. -/
theorem c1_allocation_uniqueness :
    (∀ (w : Nat → Nat) (n : Nat), (∀ r ∈ (allocRun w n).1, 0 ≤ r) →
        (allocRun w n).1.Nodup) ∧
    (∀ (fs : Disk) (p : Nat) (nm : List Char) (ty : Nat),
        (create_inode fs p nm ty).isSome = true →
        ((create_inode fs p nm ty).getD fs).inode_bitmap = (allocStep fs.inode_bitmap).2 ∧
        ((create_inode fs p nm ty).getD fs).data_bitmap = (allocStep fs.data_bitmap).2) := by
  constructor
  · intro w n
    induction n generalizing w with
    | zero => intro _; simp [allocRun]
    | succ n ih =>
      intro hpos
      rw [allocRun_succ] at hpos ⊢
      refine List.nodup_cons.mpr ⟨?_, ih _ (fun r hr => hpos r (List.mem_cons_of_mem _ hr))⟩
      have h0 : 0 ≤ (allocStep w).1 := hpos _ (List.mem_cons_self _ _)
      rw [allocStep_fst] at h0
      have h2 := allocStep_snd w h0
      have h3 : get_bit (allocStep w).2 (first_clear_bit w).toNat = true := by
        rw [h2]; exact get_bit_set_bit_self w _
      have h4 := allocRun_not_mem (first_clear_bit w).toNat n (allocStep w).2 h3
      rw [Int.toNat_of_nonneg h0] at h4
      rw [allocStep_fst]
      exact h4
  · intro fs p nm ty hs
    obtain ⟨fs', hfs'⟩ := Option.isSome_iff_exists.mp hs
    rw [hfs', Option.getD_some]
    obtain ⟨pb, s, _, hr1, hr2, _, _, heq⟩ := create_inode_spec fs p nm ty fs' hfs'
    subst heq
    rw [allocStep_snd fs.inode_bitmap hr1, allocStep_snd fs.data_bitmap hr2]
    exact ⟨rfl, rfl⟩

/-- Witness for C1: three successful allocations from the all-zero bitmap
hand out pairwise distinct indices, and a concrete successful `create_inode`
performs exactly one allocation step on the inode bitmap. -/
theorem c1_allocation_uniqueness_witness :
    ((allocRun zero_words 3).1).Nodup ∧
    ((create_inode fs_create_disk 0 ['a'] inode_type_file).getD fs_create_disk).inode_bitmap =
      (allocStep fs_create_disk.inode_bitmap).2 := by
  constructor
  · exact c1_allocation_uniqueness.1 zero_words 3
      (by rw [show (allocRun zero_words 3).1 = [0, 1, 2] from rfl]; decide)
  · exact (c1_allocation_uniqueness.2 fs_create_disk 0 ['a'] inode_type_file rfl).1

/-- C3: immediately after `fs_create_disk`, inode 0 is allocated in the inode
bitmap, has type directory and owns data block 0 (which is allocated in the
data bitmap), and block 0 holds exactly the two entries "." and ".." with
every later slot still the empty-name sentinel. -/
theorem c3_root_invariant :
    get_bit fs_create_disk.inode_bitmap 0 = true ∧
    (fs_create_disk.inodes 0).type = inode_type_directory ∧
    (fs_create_disk.inodes 0).data_block0 = some 0 ∧
    get_bit fs_create_disk.data_bitmap 0 = true ∧
    fs_create_disk.blocks 0 0 = ⟨0, ['.']⟩ ∧
    fs_create_disk.blocks 0 1 = ⟨0, ['.', '.']⟩ ∧
    (∀ j, 2 ≤ j → fs_create_disk.blocks 0 j = ⟨0, []⟩) := by
  refine ⟨by decide, rfl, rfl, by decide, rfl, rfl, ?_⟩
  intro j hj
  show init_direntry_datablock_with_default_directories (fun _ => ⟨0, []⟩) j = ⟨0, []⟩
  unfold init_direntry_datablock_with_default_directories
  rw [Function.update_noteq (by omega), Function.update_noteq (by omega)]

/-- Witness for C3: the bounded conjunct evaluated at slot 5. -/
theorem c3_root_invariant_witness :
    fs_create_disk.blocks 0 5 = ⟨0, []⟩ ∧ get_bit fs_create_disk.inode_bitmap 0 = true :=
  ⟨c3_root_invariant.2.2.2.2.2.2 5 (by omega), c3_root_invariant.1⟩

/-- C4: on a fresh disk, after `create_dir "/a"` and `create_file "/a/b.txt"`
both succeed, `print_tree` lists exactly these lines in this order: the root
line, then ".", "..", "a" at one space of indentation (insertion order of the
root's entries), then ".", "..", "b.txt" at two spaces under "a"; the "." and
".." entries are printed but not recursed into. -/
theorem c4_path_round_trip :
    ((create_dir fs_create_disk pathA).bind (fun f => create_file f pathAB)).map print_tree =
      some [['/'],
            [' ', '.'], [' ', '.', '.'], [' ', 'a'],
            [' ', ' ', '.'], [' ', ' ', '.', '.'],
            [' ', ' ', 'b', '.', 't', 'x', 't']] := rfl

/-- C5: refuted on the code — counterexample at an explicit input.  On a disk
whose data bitmap marks every one of the 56 data-region blocks allocated
(word 0 all ones, exactly the word value the allocation discipline leaves
after 32 creations), a further `create_file` call does not fail — there is no
`NoSpace` error or capacity check anywhere in fs.c — and does not leave the
disk unchanged: it sets data-bitmap bit 64 (an index far beyond the 56-block
data region), so the bitmap is mutated. -/
theorem c5_counterexample :
    region_all_allocated fs_full.data_bitmap = true ∧
    get_bit fs_full.data_bitmap 64 = false ∧
    (create_file fs_full ['/', 'x']).map (fun f => get_bit f.data_bitmap 64) = some true :=
  ⟨by decide, by decide, rfl⟩

/-- C5 (amended): once every data-region block is marked allocated, a
creation that completes does not fail with any no-space condition: the data
allocation simply takes the first clear bit of the 32768-bit data bitmap —
an index of at least 56, outside the data region — sets it, and the disk is
mutated (the bit it allocated reads clear before the call and set after). -/
theorem c5_no_capacity_check (fs : Disk) (p : Nat) (nm : List Char) (ty : Nat)
    (hfull : ∀ i, i < DATA_REGION_IN_BLOCKS → get_bit fs.data_bitmap i = true)
    (hs : (create_inode fs p nm ty).isSome = true) :
    ∃ d : Nat, DATA_REGION_IN_BLOCKS ≤ d ∧
      first_clear_bit fs.data_bitmap = (d : Int) ∧
      get_bit fs.data_bitmap d = false ∧
      get_bit ((create_inode fs p nm ty).getD fs).data_bitmap d = true := by
  obtain ⟨fs', hfs'⟩ := Option.isSome_iff_exists.mp hs
  rw [hfs', Option.getD_some]
  obtain ⟨pb, s, _, _, hr2, _, _, heq⟩ := create_inode_spec fs p nm ty fs' hfs'
  subst heq
  refine ⟨(first_clear_bit fs.data_bitmap).toNat, ?_, ?_, ?_, ?_⟩
  · by_contra hlt
    push_neg at hlt
    have := hfull (first_clear_bit fs.data_bitmap).toNat hlt
    rw [first_clear_bit_clear fs.data_bitmap hr2] at this
    exact absurd this (by simp)
  · omega
  · exact first_clear_bit_clear fs.data_bitmap hr2
  · exact get_bit_set_bit_self fs.data_bitmap _

/-- Witness for the amended C5: on the concrete full disk the creation hands
out data index 64 and flips its bit. -/
theorem c5_no_capacity_check_witness :
    ∃ d : Nat, DATA_REGION_IN_BLOCKS ≤ d ∧
      first_clear_bit fs_full.data_bitmap = (d : Int) ∧
      get_bit fs_full.data_bitmap d = false ∧
      get_bit ((create_inode fs_full 0 ['x'] inode_type_file).getD fs_full).data_bitmap d = true :=
  c5_no_capacity_check fs_full 0 ['x'] inode_type_file (by decide) rfl

/-- With a non-directory starting inode and at least one component left, the
walk either breaks with the disk unchanged or aborts in `create_inode`'s
assertion before any write. -/
theorem walk_create_nondir (fs : Disk) (ty : Nat) (j : Nat)
    (hj : (fs.inodes j).type ≠ inode_type_directory) :
    ∀ (c : List Char) (rest : List (List Char)),
      walk_create fs j ty (c :: rest) = some fs ∨ walk_create fs j ty (c :: rest) = none := by
  intro c rest
  cases rest with
  | nil =>
    right
    show create_inode fs j c ty = none
    unfold create_inode
    rw [if_neg hj]
  | cons c2 rest2 =>
    left
    show (match directory_inode fs j c with
      | none => some fs
      | some k => walk_create fs k ty (c2 :: rest2)) = some fs
    unfold directory_inode
    rw [if_pos hj]

/-- If some intermediate component of the walk fails to resolve to an
existing directory, the walk returns the disk unchanged or aborts in the
assertion with nothing written. -/
theorem walk_create_bad (fs : Disk) (ty : Nat) :
    ∀ (comps : List (List Char)) (cur : Nat), bad_walk fs cur comps = true →
      walk_create fs cur ty comps = some fs ∨ walk_create fs cur ty comps = none := by
  intro comps
  induction comps with
  | nil => intro cur hbad; exact absurd hbad (by simp [bad_walk])
  | cons c rest ih =>
    intro cur hbad
    cases rest with
    | nil => exact absurd hbad (by simp [bad_walk])
    | cons c2 rest2 =>
      simp only [bad_walk] at hbad
      show (match directory_inode fs cur c with
        | none => some fs
        | some k => walk_create fs k ty (c2 :: rest2)) = some fs ∨
        (match directory_inode fs cur c with
        | none => some fs
        | some k => walk_create fs k ty (c2 :: rest2)) = none
      cases hdi : directory_inode fs cur c with
      | none => left; simp
      | some k =>
        rw [hdi] at hbad
        simp only at hbad
        by_cases hk : (fs.inodes k).type = inode_type_directory
        · rw [if_pos hk] at hbad
          simpa using ih k hbad
        · simpa using walk_create_nondir fs ty k hk c2 rest2

/-- C6: for every `create_file`/`create_dir` call whose path lacks a leading
slash, or walks through an intermediate component that does not resolve to
an existing directory, the create is abandoned with the whole disk state
unchanged: the call returns the disk it was given, or (only when the bad
component is the direct parent and names an existing non-directory) aborts
in `create_inode`'s `assert(parent->type == inode_type_directory)` before
any bitmap, inode-table or directory write has happened — which `none`
models. -/
theorem c6_bad_path_no_mutation (fs : Disk) (path : List Char)
    (h : path.head? ≠ some '/' ∨
      bad_walk fs root_inode (splitSlash (path.drop 1)) = true) :
    (create_file fs path = some fs ∨ create_file fs path = none) ∧
    (create_dir fs path = some fs ∨ create_dir fs path = none) := by
  cases path with
  | nil => exact ⟨Or.inl rfl, Or.inl rfl⟩
  | cons c rest =>
    by_cases hc : c = '/'
    · subst hc
      have hbad : bad_walk fs root_inode (splitSlash rest) = true := by
        rcases h with h1 | h2
        · exact absurd rfl h1
        · simpa using h2
      constructor
      · show walk_create fs root_inode inode_type_file (splitSlash rest) = some fs ∨
          walk_create fs root_inode inode_type_file (splitSlash rest) = none
        exact walk_create_bad fs inode_type_file (splitSlash rest) root_inode hbad
      · show walk_create fs root_inode inode_type_directory (splitSlash rest) = some fs ∨
          walk_create fs root_inode inode_type_directory (splitSlash rest) = none
        exact walk_create_bad fs inode_type_directory (splitSlash rest) root_inode hbad
    · constructor
      · left
        show (if c = '/' then walk_create fs root_inode inode_type_file (splitSlash rest)
          else some fs) = some fs
        rw [if_neg hc]
      · left
        show (if c = '/' then walk_create fs root_inode inode_type_directory (splitSlash rest)
          else some fs) = some fs
        rw [if_neg hc]

/-- Witness for C6: the relative path "relative.txt" (no leading slash) and
the path "/missing/x.txt" (no entry "missing" in the fresh root) both leave
the fresh disk exactly as it was. -/
theorem c6_bad_path_no_mutation_witness :
    (create_file fs_create_disk rel_path = some fs_create_disk ∨
      create_file fs_create_disk rel_path = none) ∧
    (create_dir fs_create_disk rel_path = some fs_create_disk ∨
      create_dir fs_create_disk rel_path = none) ∧
    (create_file fs_create_disk missing_path = some fs_create_disk ∨
      create_file fs_create_disk missing_path = none) :=
  ⟨(c6_bad_path_no_mutation fs_create_disk rel_path (Or.inl (by decide))).1,
   (c6_bad_path_no_mutation fs_create_disk rel_path (Or.inl (by decide))).2,
   (c6_bad_path_no_mutation fs_create_disk missing_path (Or.inr (by rfl))).1⟩

/-- A parent whose inode-bitmap bit is set is distinct from the index the
inode allocation hands out (which was clear). -/
theorem parent_ne_new_inum (fs : Disk) (p : Nat)
    (hpBit : get_bit fs.inode_bitmap p = true)
    (hr1 : 0 ≤ first_clear_bit fs.inode_bitmap) :
    p ≠ (first_clear_bit fs.inode_bitmap).toNat := by
  intro he
  have hclear := first_clear_bit_clear fs.inode_bitmap hr1
  rw [← he, hpBit] at hclear
  exact absurd hclear (by simp)

/-- A parent block whose data-bitmap bit is set is distinct from the block
index the data allocation hands out (which was clear). -/
theorem new_dnum_ne_parent_block (fs : Disk) (pb : Nat)
    (hpbBit : get_bit fs.data_bitmap pb = true)
    (hr2 : 0 ≤ first_clear_bit fs.data_bitmap) :
    (first_clear_bit fs.data_bitmap).toNat ≠ pb := by
  intro he
  have hclear := first_clear_bit_clear fs.data_bitmap hr2
  rw [he, hpbBit] at hclear
  exact absurd hclear (by simp)

/-- In the disk a successful creation returns, the parent's block carries the
appended entry at slot `s` and is otherwise the old block (the seeding of the
freshly allocated block — an index distinct from `pb` — does not touch it). -/
theorem createdDisk_blocks_parent (fs : Disk) (nm : List Char) (ty : Nat) (pb s : Nat)
    (hne : (first_clear_bit fs.data_bitmap).toNat ≠ pb) :
    (createdDisk fs nm ty pb s).blocks pb =
      Function.update (fs.blocks pb) s
        ⟨(first_clear_bit fs.inode_bitmap).toNat, nm.take MAX_DIRECTORY_NAME_LENGTH⟩ := by
  simp only [createdDisk]
  by_cases hty : ty = inode_type_directory
  · rw [if_pos hty, Function.update_noteq (Ne.symm hne), Function.update_same]
  · rw [if_neg hty, Function.update_same]

/-- In the disk a successful creation returns, every inode other than the
newly written one is unchanged. -/
theorem createdDisk_inodes_at (fs : Disk) (nm : List Char) (ty : Nat) (pb s q : Nat)
    (hq : q ≠ (first_clear_bit fs.inode_bitmap).toNat) :
    (createdDisk fs nm ty pb s).inodes q = fs.inodes q := by
  simp only [createdDisk]
  exact Function.update_noteq hq _ _

/-- C7: whenever `create_inode` completes for a name longer than 30
characters (under a live directory parent), the directory entry it writes
into the parent's block stores the name silently truncated to its first 30
characters — `MAX_DIRECTORY_NAME_LENGTH` — together with the allocated inode
index; the stored string has length exactly 30.  The stored name depends on
nothing but the argument name, so repeated calls with the same input store
the same name. -/
theorem c7_name_truncated (fs : Disk) (p : Nat) (nm : List Char) (ty : Nat) (pb : Nat)
    (hpb : (fs.inodes p).data_block0 = some pb)
    (hpBit : get_bit fs.inode_bitmap p = true)
    (hpbBit : get_bit fs.data_bitmap pb = true)
    (hlen : MAX_DIRECTORY_NAME_LENGTH < nm.length)
    (hs : (create_inode fs p nm ty).isSome = true) :
    ∃ slot,
      ((create_inode fs p nm ty).getD fs).blocks pb slot =
        ⟨(first_clear_bit fs.inode_bitmap).toNat, nm.take MAX_DIRECTORY_NAME_LENGTH⟩ ∧
      (nm.take MAX_DIRECTORY_NAME_LENGTH).length = MAX_DIRECTORY_NAME_LENGTH := by
  obtain ⟨fs', hfs'⟩ := Option.isSome_iff_exists.mp hs
  rw [hfs', Option.getD_some]
  obtain ⟨pb', s, _, hr1, hr2, hpb', hfind, heq⟩ := create_inode_spec fs p nm ty fs' hfs'
  subst heq
  have hpne := parent_ne_new_inum fs p hpBit hr1
  rw [Function.update_noteq hpne, hpb, Option.some_inj] at hpb'
  subst hpb'
  have hdne := new_dnum_ne_parent_block fs pb hpbBit hr2
  refine ⟨s, ?_, ?_⟩
  · rw [createdDisk_blocks_parent fs nm ty pb s hdne, Function.update_same]
  · rw [List.length_take]
    omega

/-- Witness for C7: creating a 31-character name under the fresh root stores
its 30-character prefix. -/
theorem c7_name_truncated_witness :
    ∃ slot,
      ((create_inode fs_create_disk 0 long_name inode_type_file).getD fs_create_disk).blocks
          0 slot =
        ⟨(first_clear_bit fs_create_disk.inode_bitmap).toNat,
          long_name.take MAX_DIRECTORY_NAME_LENGTH⟩ ∧
      (long_name.take MAX_DIRECTORY_NAME_LENGTH).length = MAX_DIRECTORY_NAME_LENGTH :=
  c7_name_truncated fs_create_disk 0 long_name inode_type_file 0 rfl (by decide) (by decide)
    (by decide) rfl

/-- The seeding helper writes exactly the "." and ".." entries, both with
child inode index 0, and leaves every slot from 2 on untouched. -/
theorem init_direntry_datablock_spec (blk : Nat → direntry) :
    init_direntry_datablock_with_default_directories blk 0 = ⟨0, ['.']⟩ ∧
    init_direntry_datablock_with_default_directories blk 1 = ⟨0, ['.', '.']⟩ ∧
    (∀ j, 2 ≤ j → init_direntry_datablock_with_default_directories blk j = blk j) := by
  unfold init_direntry_datablock_with_default_directories
  refine ⟨?_, Function.update_same _ _ _, ?_⟩
  · rw [Function.update_noteq (by omega), Function.update_same]
  · intro j hj
    rw [Function.update_noteq (by omega), Function.update_noteq (by omega)]

/-- C8: every directory created by `create_inode` (under a live directory
parent) has its freshly allocated data block seeded with exactly the two
entries "." and "..", both carrying child inode index 0 — whatever directory
the actual parent is — and every further slot of that block untouched. -/
theorem c8_new_directory_seeded (fs : Disk) (p : Nat) (nm : List Char) (pb : Nat)
    (hpb : (fs.inodes p).data_block0 = some pb)
    (hpBit : get_bit fs.inode_bitmap p = true)
    (hpbBit : get_bit fs.data_bitmap pb = true)
    (hs : (create_inode fs p nm inode_type_directory).isSome = true) :
    (((create_inode fs p nm inode_type_directory).getD fs).inodes
        (first_clear_bit fs.inode_bitmap).toNat).data_block0 =
      some (first_clear_bit fs.data_bitmap).toNat ∧
    ((create_inode fs p nm inode_type_directory).getD fs).blocks
        (first_clear_bit fs.data_bitmap).toNat 0 = ⟨0, ['.']⟩ ∧
    ((create_inode fs p nm inode_type_directory).getD fs).blocks
        (first_clear_bit fs.data_bitmap).toNat 1 = ⟨0, ['.', '.']⟩ ∧
    (∀ j, 2 ≤ j →
      ((create_inode fs p nm inode_type_directory).getD fs).blocks
          (first_clear_bit fs.data_bitmap).toNat j =
        fs.blocks (first_clear_bit fs.data_bitmap).toNat j) := by
  obtain ⟨fs', hfs'⟩ := Option.isSome_iff_exists.mp hs
  rw [hfs', Option.getD_some]
  obtain ⟨pb', s, _, hr1, hr2, hpb', hfind, heq⟩ :=
    create_inode_spec fs p nm inode_type_directory fs' hfs'
  subst heq
  have hpne := parent_ne_new_inum fs p hpBit hr1
  rw [Function.update_noteq hpne, hpb, Option.some_inj] at hpb'
  subst hpb'
  have hdne := new_dnum_ne_parent_block fs pb hpbBit hr2
  have hblocks : (createdDisk fs nm inode_type_directory pb s).blocks
      (first_clear_bit fs.data_bitmap).toNat =
      init_direntry_datablock_with_default_directories
        (fs.blocks (first_clear_bit fs.data_bitmap).toNat) := by
    simp only [createdDisk, if_true, eq_self_iff_true]
    rw [Function.update_same, Function.update_noteq hdne]
  refine ⟨?_, ?_, ?_, ?_⟩
  · show (Function.update fs.inodes (first_clear_bit fs.inode_bitmap).toNat
        ⟨inode_type_directory, some (first_clear_bit fs.data_bitmap).toNat⟩
        (first_clear_bit fs.inode_bitmap).toNat).data_block0 =
      some (first_clear_bit fs.data_bitmap).toNat
    rw [Function.update_same]
  · rw [hblocks]
    exact (init_direntry_datablock_spec _).1
  · rw [hblocks]
    exact (init_direntry_datablock_spec _).2.1
  · intro j hj
    rw [hblocks]
    exact (init_direntry_datablock_spec _).2.2 j hj

/-- Witness for C8: `create_inode` of a directory named "a" under the fresh
root seeds block 1 with "." and ".." pointing at inode 0, and leaves its
slot 7 untouched. -/
theorem c8_new_directory_seeded_witness :
    ((create_inode fs_create_disk 0 ['a'] inode_type_directory).getD fs_create_disk).blocks
        (first_clear_bit fs_create_disk.data_bitmap).toNat 0 = ⟨0, ['.']⟩ ∧
    ((create_inode fs_create_disk 0 ['a'] inode_type_directory).getD fs_create_disk).blocks
        (first_clear_bit fs_create_disk.data_bitmap).toNat 1 = ⟨0, ['.', '.']⟩ ∧
    ((create_inode fs_create_disk 0 ['a'] inode_type_directory).getD fs_create_disk).blocks
        (first_clear_bit fs_create_disk.data_bitmap).toNat 7 =
      fs_create_disk.blocks (first_clear_bit fs_create_disk.data_bitmap).toNat 7 := by
  have h := c8_new_directory_seeded fs_create_disk 0 ['a'] 0 rfl (by decide) (by decide) rfl
  exact ⟨h.2.1, h.2.2.1, h.2.2.2 7 (by omega)⟩

/-- The append scan only ever moves forward: a found slot lies at or beyond
the scan's start. -/
theorem findSlotAux_le (blk : Nat → direntry) :
    ∀ (fuel slot idx s : Nat), findSlotAux blk slot idx fuel = some s → slot ≤ s := by
  intro fuel
  induction fuel with
  | zero => intro slot idx s h; exact absurd h (by simp [findSlotAux])
  | succ fuel ih =>
    intro slot idx s h
    simp only [findSlotAux] at h
    split at h
    · injection h with h2
      omega
    · have := ih (slot + (idx + 1)) (idx + 1) s h
      omega

/-- The heart of the append/lookup round trip: the lookup scan walks the very
same slot sequence as the append scan (both advance by `entry = &entry[++index]`),
so after writing `⟨inum, st⟩` into the slot the append scan found, a lookup
for `st` — provided `st` is nonempty and differs from the name of every live
entry the scans step through first — returns `inum`. -/
theorem lookup_after_append (blk : Nat → direntry) (st : List Char) (inum : Nat)
    (hne : st ≠ []) :
    ∀ (fuel slot idx s : Nat), findSlotAux blk slot idx fuel = some s →
      st ∉ (scanEntriesAux blk slot idx fuel).map direntry.name →
      lookupAux (Function.update blk s ⟨inum, st⟩) st slot idx fuel = some inum := by
  intro fuel
  induction fuel with
  | zero => intro slot idx s h _; exact absurd h (by simp [findSlotAux])
  | succ fuel ih =>
    intro slot idx s hfind hmem
    simp only [findSlotAux] at hfind
    simp only [scanEntriesAux] at hmem
    by_cases hemp : (blk slot).name = []
    · rw [if_pos hemp] at hfind
      injection hfind with hs
      subst hs
      simp only [lookupAux, Function.update_same]
      simp [hne]
    · rw [if_neg hemp] at hfind
      rw [if_neg hemp] at hmem
      have hle := findSlotAux_le blk fuel (slot + (idx + 1)) (idx + 1) s hfind
      have hslot_ne : slot ≠ s := by omega
      simp only [List.map_cons, List.mem_cons, not_or] at hmem
      obtain ⟨hne2, hmem2⟩ := hmem
      simp only [lookupAux]
      rw [Function.update_noteq hslot_ne, if_neg hemp, if_neg (fun hh => hne2 hh.symm)]
      exact ih (slot + (idx + 1)) (idx + 1) s hfind hmem2

/-- C9: refuted on the code as universally stated — counterexample at an
explicit input.  On the fresh disk, `create_inode` with name "." under the
root allocates inode 1 and appends the entry `⟨1, "."⟩` at slot 3 of the
root's block; but `directory_inode` of the root for "." returns inode 0 (the
seeded "." entry at slot 0 matches first), not the inode allocated for that
child. -/
theorem c9_counterexample :
    (create_inode fs_create_disk 0 ['.'] inode_type_file).map
        (fun f => ((f.blocks 0 3).name, (f.blocks 0 3).inum, directory_inode f 0 ['.'])) =
      some (['.'], 1, some 0) := rfl

/-- C9 (amended): the append scan of `create_inode` and the lookup scan of
`directory_inode` step through a directory block's slots with the same
stride (`entry = &entry[++index]`, visiting slots 0, 1, 3, 6, …), so looking
up a created child's stored (30-character-truncated) name in its parent
returns exactly the inode `create_inode` allocated — provided that stored
name is nonempty and differs from the stored name of every live entry
already in the parent (the seeded "." and ".." entries and any same-named
sibling); the unamended universal claim fails on duplicates. -/
theorem c9_lookup_finds_created (fs : Disk) (p : Nat) (nm : List Char) (ty : Nat) (pb : Nat)
    (hpb : (fs.inodes p).data_block0 = some pb)
    (hpBit : get_bit fs.inode_bitmap p = true)
    (hpbBit : get_bit fs.data_bitmap pb = true)
    (hfresh : nm.take MAX_DIRECTORY_NAME_LENGTH ∉
      (scanEntries (fs.blocks pb)).map direntry.name)
    (hnm : nm.take MAX_DIRECTORY_NAME_LENGTH ≠ [])
    (hs : (create_inode fs p nm ty).isSome = true) :
    directory_inode ((create_inode fs p nm ty).getD fs) p
        (nm.take MAX_DIRECTORY_NAME_LENGTH) =
      some (first_clear_bit fs.inode_bitmap).toNat := by
  obtain ⟨fs', hfs'⟩ := Option.isSome_iff_exists.mp hs
  rw [hfs', Option.getD_some]
  obtain ⟨pb', s, hty, hr1, hr2, hpb', hfind, heq⟩ := create_inode_spec fs p nm ty fs' hfs'
  subst heq
  have hpne := parent_ne_new_inum fs p hpBit hr1
  rw [Function.update_noteq hpne, hpb, Option.some_inj] at hpb'
  subst hpb'
  have hdne := new_dnum_ne_parent_block fs pb hpbBit hr2
  unfold directory_inode
  rw [createdDisk_inodes_at fs nm ty pb s p hpne]
  rw [if_neg (fun hcon => hcon hty)]
  simp only [hpb]
  rw [createdDisk_blocks_parent fs nm ty pb s hdne]
  exact lookup_after_append (fs.blocks pb) (nm.take MAX_DIRECTORY_NAME_LENGTH)
    (first_clear_bit fs.inode_bitmap).toNat hnm DIRENTRIES_PER_BLOCK 0 0 s hfind hfresh

/-- Witness for the amended C9: creating "a" under the fresh root and looking
"a" up again returns the allocated inode (index 1). -/
theorem c9_lookup_finds_created_witness :
    directory_inode ((create_inode fs_create_disk 0 ['a'] inode_type_file).getD fs_create_disk)
        0 ((['a'] : List Char).take MAX_DIRECTORY_NAME_LENGTH) =
      some (first_clear_bit fs_create_disk.inode_bitmap).toNat :=
  c9_lookup_finds_created fs_create_disk 0 ['a'] inode_type_file 0 rfl (by decide) (by decide)
    (by decide) (by decide) rfl
